import Mathlib

/-!
# Verification of the PTM (Polynomial Texture Map) viewer

Shallow embedding of the PTM decoder (`ptm-parser.js`, present in the
repository in two revisions), the coefficient range packer and relighting
polynomial of `webgl-renderer.js`, and the light-direction pipeline of
`app.js`, together with proofs about the repository's specification claims.

Conventions of the embedding:
* a byte buffer (JS `ArrayBuffer` viewed through `DataView`) is a `List Nat`
  of byte values; `DataView.getUint8` on an out-of-range index throws a
  `RangeError`, modelled by `Except` with error `PErr.rangeError`;
* JS strings are lists of characters (`JStr`);
* JS numbers that can be `NaN` (results of `parseInt` / `Number`, and the
  width/height/scale/bias values derived from them) are `Option ℤ` /
  `Option ℚ`, with `none` standing for `NaN` (every arithmetic operation
  propagates `none`, exactly as `NaN` propagates);
* exact numeric work (dequantisation, range packing, the luminance
  polynomial) is over `ℚ`; the surface-normal estimator and the
  light-direction pipeline, which use `Math.sqrt`, are over `ℝ`.
-/

namespace PTM

/-- Errors a decode can surface.  The parser's own `throw new Error(...)`
sites give the first four; `rangeError` is the `RangeError` that
`DataView.getUint8` (or a negative-length typed-array allocation) throws —
the code contains no `Truncated`-style error of its own. -/
inductive PErr where
  | unsupportedVersion
  | unsupportedFormat
  | jpegUnsupported
  | formatNotImplemented
  | rangeError
deriving DecidableEq

/-- A JS string, as its list of characters. -/
abbrev JStr := List Char

/-- A byte buffer. -/
abbrev Bytes := List Nat

/-- `DataView.getUint8` at a natural index: the byte, or `RangeError` when
the index is past the end of the buffer. -/
def getUint8 (buf : Bytes) (i : Nat) : Except PErr Nat :=
  match buf.get? i with
  | some b => .ok b
  | none => .error .rangeError

/-- `DataView.getUint8` at an index that may be `NaN` (`none`) or negative:
`ToIndex(NaN) = 0`, so a `NaN` index reads byte 0; a negative index is a
`RangeError`. -/
def getUint8J (buf : Bytes) (i : Option ℤ) : Except PErr Nat :=
  match i with
  | none => getUint8 buf 0
  | some z => if z < 0 then .error .rangeError else getUint8 buf z.toNat

/-- Sequential effectful map over a list (the shape of the JS `for` loops
that fill the output arrays: the first failing read aborts the decode). -/
def forList (f : Nat → Except PErr α) : List Nat → Except PErr (List α)
  | [] => .ok []
  | i :: is =>
    match f i with
    | .error e => .error e
    | .ok a =>
      match forList f is with
      | .error e => .error e
      | .ok as => .ok (a :: as)

/-- Run `f` on `0, 1, …, n-1` in order, collecting the results. -/
def forRange (n : Nat) (f : Nat → Except PErr α) : Except PErr (List α) :=
  forList f (List.range n)

@[simp] theorem bind_ok_except (a : α) (f : α → Except PErr β) :
    (bind (Except.ok a) f : Except PErr β) = f a := rfl

@[simp] theorem bind_error_except (e : PErr) (f : α → Except PErr β) :
    (bind (Except.error e) f : Except PErr β) = Except.error e := rfl

@[simp] theorem pure_eq_ok (a : α) : (pure a : Except PErr α) = Except.ok a := rfl

theorem forList_ok_length {f : Nat → Except PErr α} {l : List Nat} {res : List α}
    (h : forList f l = .ok res) : res.length = l.length := by
  induction l generalizing res with
  | nil => simp [forList] at h; simp [← h]
  | cons i is ih =>
    simp only [forList] at h
    cases hf : f i with
    | error e => rw [hf] at h; exact absurd h (by simp)
    | ok a =>
      rw [hf] at h
      cases hr : forList f is with
      | error e => rw [hr] at h; exact absurd h (by simp)
      | ok as =>
        rw [hr] at h
        cases h
        simp [ih hr]

theorem forList_ok_get {f : Nat → Except PErr α} {l : List Nat} {res : List α}
    (h : forList f l = .ok res) :
    ∀ k i, l.get? k = some i → ∃ a, f i = .ok a ∧ res.get? k = some a := by
  induction l generalizing res with
  | nil => intro k i hk; simp at hk
  | cons j js ih =>
    intro k i hk
    simp only [forList] at h
    cases hf : f j with
    | error e => rw [hf] at h; exact absurd h (by simp)
    | ok a =>
      rw [hf] at h
      cases hr : forList f js with
      | error e => rw [hr] at h; exact absurd h (by simp)
      | ok as =>
        rw [hr] at h
        cases h
        cases k with
        | zero => simp at hk; exact ⟨a, by rw [← hk]; exact hf, rfl⟩
        | succ k' => exact ih hr k' i (by simpa using hk)

theorem forRange_ok_get {f : Nat → Except PErr α} {n : Nat} {res : List α}
    (h : forRange n f = .ok res) :
    ∀ k, k < n → ∃ a, f k = .ok a ∧ res.get? k = some a := by
  intro k hk
  exact forList_ok_get h k k (by simp [List.get?_eq_getElem?, List.getElem?_range, hk])

/-! ## JS string and number helpers

The header lines are accumulated character by character from the byte
stream; `trim`, `parseInt`, `Number` and `split(/\s+/)` are modelled on
lists of characters.  `parseInt` / `Number` are modelled for the decimal
literals that occur in PTM headers (optional sign, digits, optional
fractional part); a string that does not parse gives `none` (JS `NaN`). -/

/-- JS `String.prototype.trim`: strip leading and trailing whitespace. -/
def jsTrim (s : JStr) : JStr :=
  ((s.dropWhile Char.isWhitespace).reverse.dropWhile Char.isWhitespace).reverse

/-- Leading decimal digits of a character list. -/
def takeDigits : List Char → List Char
  | [] => []
  | c :: cs => if c.isDigit then c :: takeDigits cs else []

/-- Numeric value of a list of decimal digits (most significant first). -/
def digitsToNat (ds : List Char) : ℕ :=
  ds.foldl (fun acc c => acc * 10 + (c.toNat - 48)) 0

/-- JS `parseInt(s)` (radix 10): skip leading whitespace, optional sign,
then as many decimal digits as possible, ignoring any trailing junk
(`parseInt("12px") = 12`); no digits at all gives `NaN` (`none`). -/
def jsParseInt (s : JStr) : Option ℤ :=
  match s.dropWhile Char.isWhitespace with
  | [] => none
  | c :: cs =>
    let signAndRest : ℤ × List Char :=
      if c = '-' then (-1, cs) else if c = '+' then (1, cs) else (1, c :: cs)
    let ds := takeDigits signAndRest.2
    if ds.isEmpty then none else some (signAndRest.1 * digitsToNat ds)

/-- Digits-dot-digits body of a decimal literal; the whole string must be
consumed (`Number`, unlike `parseInt`, rejects trailing junk). -/
def parseDec (cs : List Char) : Option ℚ :=
  let ip := cs.takeWhile Char.isDigit
  let rest := cs.drop ip.length
  match rest with
  | [] => if ip.isEmpty then none else some (digitsToNat ip)
  | '.' :: fs =>
    if fs.all Char.isDigit then
      if ip.isEmpty && fs.isEmpty then none
      else some ((digitsToNat ip : ℚ) + (digitsToNat fs : ℚ) / (10 ^ fs.length))
    else none
  | _ => none

/-- JS `Number(s)` for the decimal literals appearing in PTM headers:
the empty (or all-whitespace) string is `0`, otherwise an optional sign
followed by a decimal literal; anything else is `NaN` (`none`). -/
def jsNumber (s : JStr) : Option ℚ :=
  match jsTrim s with
  | [] => some 0
  | c :: cs =>
    if c = '-' then (parseDec cs).map (fun q => -q)
    else if c = '+' then parseDec cs
    else parseDec (c :: cs)

/-- JS `s.split(/\s+/)` on an already-trimmed string: split at every
whitespace character and drop the empty chunks (so runs of whitespace
count as a single separator). -/
def splitWSAux : JStr → JStr → List JStr
  | [], cur => [cur.reverse]
  | c :: cs, cur =>
    if c.isWhitespace then cur.reverse :: splitWSAux cs []
    else splitWSAux cs (c :: cur)

/-- JS `s.split(/\s+/)` (see `splitWSAux`). -/
def splitWS (s : JStr) : List JStr :=
  (splitWSAux s []).filter (fun t => ¬ t.isEmpty)

/-! ## Header reader

`parse` scans the buffer byte by byte until six newline-terminated lines
have been read: `\n` terminates a line (which is pushed trimmed), `\r` is
skipped, every other byte is appended to the current line.  Running out
of bytes is the `RangeError` of `dataView.getUint8(offset++)`. -/

/-- The byte-by-byte header loop.  Returns the six trimmed lines and the
offset just past the sixth terminator. -/
def readHeaderAux : Bytes → Nat → JStr → List JStr → Except PErr (List JStr × Nat)
  | [], off, _, acc =>
    if acc.length ≥ 6 then .ok (acc, off) else .error .rangeError
  | b :: rest, off, cur, acc =>
    if acc.length ≥ 6 then .ok (acc, off)
    else if b = 10 then readHeaderAux rest (off + 1) [] (acc ++ [jsTrim cur])
    else if b = 13 then readHeaderAux rest (off + 1) cur acc
    else readHeaderAux rest (off + 1) (cur ++ [Char.ofNat b]) acc

/-- The fixed format enumeration (`PTM_FORMATS` table). -/
def ptmFormats : List JStr :=
  ["PTM_FORMAT_RGB".toList, "PTM_FORMAT_LUM".toList, "PTM_FORMAT_LRGB".toList,
   "PTM_FORMAT_JPEG_RGB".toList, "PTM_FORMAT_JPEG_LRGB".toList,
   "PTM_FORMAT_JPEGLS_RGB".toList, "PTM_FORMAT_JPEGLS_LRGB".toList]

/-! ## Shared decode pieces -/

/-- Number of iterations of a JS `for (i = 0; i < n; i++)` loop when `n`
may be `NaN` (`none`, zero iterations) or negative (zero iterations). -/
def jsLen : Option ℤ → Nat
  | none => 0
  | some z => z.toNat

/-- `new Float32Array(n)` / `new Uint8Array(n)`: a negative length throws
a `RangeError`; `NaN` is coerced to length 0. -/
def checkAlloc : Option ℤ → Except PErr Unit
  | none => .ok ()
  | some z => if z < 0 then .error .rangeError else .ok ()

/-- PTM dequantisation `(rawByte - bias[c]) * scale[c]` as both parsers
apply it, with JS out-of-range indexing (`bias[c]` for `c ≥ length`) and
non-numeric tokens giving `NaN` (`none`), which propagates. -/
def dequant (scale bias : List (Option ℚ)) (c : Nat) (raw : Nat) : Option ℚ := do
  let b ← bias.getD c none
  let s ← scale.getD c none
  pure (((raw : ℚ) - b) * s)

/-- Result of the pixel-data stage: the six coefficient planes (row-major,
top-left origin, entries `none` when `NaN`) and the base-color plane
(the flat `rgb` `Uint8Array`, modelled one `(r, g, b)` triple per pixel). -/
structure PTMData where
  coeffs : List (List (Option ℚ))
  rgb : List (Nat × Nat × Nat)
deriving DecidableEq

/-- Everything `parse` returns besides the pixel data (the normals, whose
computation cannot fail and which use `Math.sqrt`, are modelled separately
over `ℝ` by `computeNormal`). -/
structure ParsedPTM where
  version : JStr
  format : JStr
  width : Option ℤ
  height : Option ℤ
  scale : List (Option ℚ)
  bias : List (Option ℚ)
  data : PTMData
deriving DecidableEq

/-- The debug dump `for (i = 0; i < n; i++) dataView.getUint8(start + i)`:
pure reads whose only observable effect is a possible `RangeError`. -/
def readRange (buf : Bytes) (start n : Nat) : Except PErr Unit :=
  match forRange n (fun i => getUint8 buf (start + i)) with
  | .ok _ => .ok ()
  | .error e => .error e

/-- The second debug dump: 18 reads from `offset + width * 9`, an index
that is `NaN` when `width` is (in which case `ToIndex` turns it into 0). -/
def readSecondLine (buf : Bytes) (off : Nat) (width : Option ℤ) : Except PErr Unit :=
  match forRange 18 (fun i =>
    getUint8J buf ((width.map (fun w => (off : ℤ) + w * 9)).map (fun s => s + (i : ℤ)))) with
  | .ok _ => .ok ()
  | .error e => .error e

/-! ## First parser revision

The first revision of `ptm-parser.js`: LRGB pixel data is read as
interleaved 9-byte pixels `[R, G, B, a0 … a5]`, scanlines top-to-bottom
(`destIdx = y * width + x`, no flip); RGB-format data as 18-byte pixels
with the three channels' coefficients averaged, scanlines bottom-to-top. -/
namespace Parser1

/-- One LRGB pixel of `parseUncompressedPTM` (first revision): 3 color
bytes then 6 coefficient bytes at `offset + idx * 9`, destination = source
index. -/
def readPixelLRGB (buf : Bytes) (off : Nat) (scale bias : List (Option ℚ))
    (idx : Nat) : Except PErr (List (Option ℚ) × (Nat × Nat × Nat)) := do
  let base := off + idx * 9
  let r ← getUint8 buf base
  let g ← getUint8 buf (base + 1)
  let b ← getUint8 buf (base + 2)
  let cs ← forRange 6 (fun c => do
    let raw ← getUint8 buf (base + 3 + c)
    pure (dequant scale bias c raw))
  pure (cs, (r, g, b))

/-- One RGB-format pixel of `parseUncompressedPTM` (first revision),
indexed by destination pixel (`destIdx = destY * width + x` with
`destY = height - 1 - y`, i.e. source row `h - 1 - destY`): 18 bytes per
source pixel, the three channels' coefficients averaged, and the color
taken from the per-channel constant terms (bytes 5, 11, 17). -/
def readPixelRGB (buf : Bytes) (off w h : Nat) (scale bias : List (Option ℚ))
    (destIdx : Nat) : Except PErr (List (Option ℚ) × (Nat × Nat × Nat)) := do
  let srcIdx := off + (h - 1 - destIdx / w) * w * 18 + (destIdx % w) * 18
  let cs ← forRange 6 (fun c => do
    let rawR ← getUint8 buf (srcIdx + c)
    let rawG ← getUint8 buf (srcIdx + 6 + c)
    let rawB ← getUint8 buf (srcIdx + 12 + c)
    pure (do
      let rc ← dequant scale bias c rawR
      let gc ← dequant scale bias c rawG
      let bc ← dequant scale bias c rawB
      pure ((rc + gc + bc) / 3)))
  let lumR ← getUint8 buf (srcIdx + 5)
  let lumG ← getUint8 buf (srcIdx + 11)
  let lumB ← getUint8 buf (srcIdx + 17)
  pure (cs, (lumR, lumG, lumB))

/-- `parseUncompressedPTM` of the first revision.  Allocates the six
coefficient planes and the rgb plane (negative `width * height` throws),
then fills every destination pixel in row-major order. -/
def parseUncompressedPTM (buf : Bytes) (off : Nat) (width height : Option ℤ)
    (isLRGB : Bool) (scale bias : List (Option ℚ)) : Except PErr PTMData := do
  let pixelCount : Option ℤ := do
    let w ← width
    let h ← height
    pure (w * h)
  checkAlloc pixelCount
  checkAlloc (pixelCount.map (fun z => z * 3))
  let w := jsLen width
  let h := jsLen height
  let px ←
    if isLRGB then forRange (w * h) (readPixelLRGB buf off scale bias)
    else forRange (w * h) (readPixelRGB buf off w h scale bias)
  pure { coeffs := (List.range 6).map (fun c => px.map (fun p => p.1.getD c none)),
         rgb := px.map (fun p => p.2) }

/-- `parse` of the first revision: header loop, version and format checks,
`parseInt`/`Number` header fields, the two debug byte dumps, then the
format dispatch. -/
def parse (buf : Bytes) : Except PErr ParsedPTM := do
  let (lines, off) ← readHeaderAux buf 0 [] []
  let version := lines.getD 0 []
  if "PTM_1.".toList.isPrefixOf version then pure () else throw .unsupportedVersion
  let format := lines.getD 1 []
  if format ∈ ptmFormats then pure () else throw .unsupportedFormat
  let width := jsParseInt (lines.getD 2 [])
  let height := jsParseInt (lines.getD 3 [])
  let scale := (splitWS (lines.getD 4 [])).map jsNumber
  let bias := (splitWS (lines.getD 5 [])).map jsNumber
  readRange buf off 36
  readSecondLine buf off width
  if format = "PTM_FORMAT_LRGB".toList ∨ format = "PTM_FORMAT_RGB".toList then
    let data ← parseUncompressedPTM buf off width height
      (format = "PTM_FORMAT_LRGB".toList) scale bias
    pure { version := version, format := format, width := width, height := height,
           scale := scale, bias := bias, data := data }
  else if format = "PTM_FORMAT_JPEG_LRGB".toList ∨ format = "PTM_FORMAT_JPEG_RGB".toList then
    throw .jpegUnsupported
  else
    throw .formatNotImplemented

end Parser1

/-! ## Second parser revision

The second revision of `ptm-parser.js` reads LRGB pixel data as per-pixel
groups of six coefficient bytes (`srcIdx = offset + srcPixel * 6`,
coefficient `c` at `srcIdx + c`) followed by a `width*height*3`-byte color
plane at `offset + 6 * pixelCount`, with scanlines of both regions stored
bottom-to-top (`srcY = height - 1 - y`). -/
namespace Parser2

/-- Coefficients of one destination pixel in the second revision's LRGB
branch. -/
def readCoeffPixel (buf : Bytes) (off w h : Nat) (scale bias : List (Option ℚ))
    (destIdx : Nat) : Except PErr (List (Option ℚ)) := do
  let srcPixel := (h - 1 - destIdx / w) * w + destIdx % w
  forRange 6 (fun c => do
    let raw ← getUint8 buf (off + srcPixel * 6 + c)
    pure (dequant scale bias c raw))

/-- Color triple of one destination pixel in the second revision's LRGB
branch, read from the color plane that follows the coefficient bytes. -/
def readRGBPixel (buf : Bytes) (off w h : Nat) (destIdx : Nat) :
    Except PErr (Nat × Nat × Nat) := do
  let rgbOff := off + 6 * (w * h)
  let srcPixel := (h - 1 - destIdx / w) * w + destIdx % w
  let r ← getUint8 buf (rgbOff + srcPixel * 3)
  let g ← getUint8 buf (rgbOff + srcPixel * 3 + 1)
  let b ← getUint8 buf (rgbOff + srcPixel * 3 + 2)
  pure (r, g, b)

/-- The LRGB branch of the second revision's `parseUncompressedPTM`
(the branch the spec describes as the planar layout), for parsed
dimensions `w × h`. -/
def parseUncompressedLRGB (buf : Bytes) (off w h : Nat)
    (scale bias : List (Option ℚ)) : Except PErr PTMData := do
  let px ← forRange (w * h) (readCoeffPixel buf off w h scale bias)
  let rgbpx ← forRange (w * h) (readRGBPixel buf off w h)
  pure { coeffs := (List.range 6).map (fun c => px.map (fun p => p.getD c none)),
         rgb := rgbpx }

end Parser2

/-! ## Surface-normal estimator

`computeNormals` is character-for-character identical in both parser
revisions; its per-pixel body is `computeNormal`.  It uses `Math.sqrt`,
so it is modelled over `ℝ`. -/

/-- Per-pixel body of `computeNormals`: candidate `(nx, ny) = (a3, a4)`;
if `nx² + ny² ≥ 1`, rescale onto the unit circle with `nz = 0`, else
`nz = sqrt (1 - nx² - ny²)`. -/
noncomputable def computeNormal (a3 a4 : ℝ) : ℝ × ℝ × ℝ :=
  let nxySquared := a3 * a3 + a4 * a4
  if nxySquared ≥ 1 then
    let mag := Real.sqrt nxySquared
    (a3 / mag, a4 / mag, 0)
  else
    (a3, a4, Real.sqrt (1 - nxySquared))

/-- `computeNormals`: one normal per pixel `i < pixelCount`, from the
linear coefficient planes `coefficients[3]` and `coefficients[4]`. -/
noncomputable def computeNormals (coefficients : Fin 6 → Nat → ℝ)
    (pixelCount : Nat) : List (ℝ × ℝ × ℝ) :=
  (List.range pixelCount).map (fun i => computeNormal (coefficients 3 i) (coefficients 4 i))

/-! ## Coefficient range packer (`webgl-renderer.js`) -/

/-- The min scan of `createCoefficientTextures`: `min` starts at
`Infinity` (modelled `none`) and is replaced whenever `val < min`. -/
def jsMinScan (l : List ℚ) : Option ℚ :=
  l.foldl (fun acc v =>
    match acc with
    | none => some v
    | some m => if v < m then some v else some m) none

/-- The max scan of `createCoefficientTextures` (`max` starts at
`-Infinity`, replaced whenever `val > max`). -/
def jsMaxScan (l : List ℚ) : Option ℚ :=
  l.foldl (fun acc v =>
    match acc with
    | none => some v
    | some m => if v > m then some v else some m) none

/-- `RTIRenderer.normalizeCoeff`: pack a coefficient value into 0–255
against the computed range; the flat range returns 128, otherwise
`Math.max(0, Math.min(255, Math.floor(normalized * 255)))`. -/
def normalizeCoeff (value mn mx : ℚ) : ℤ :=
  let span := mx - mn
  if span = 0 then 128
  else
    let normalized := (value - mn) / span
    max 0 (min 255 ⌊normalized * 255⌋)

/-- `clamp(x, lo, hi)` over `ℚ`. -/
def clampQ (x lo hi : ℚ) : ℚ := max lo (min hi x)

/-- Modelled from the spec's words (for comparison with `normalizeCoeff`):
`packed = round(clamp((value - min) / (max - min), 0, 1) * 255)`, with the
flat case the fixed midpoint 128. -/
def specPackedRound (value mn mx : ℚ) : ℤ :=
  if mx = mn then 128
  else round (clampQ ((value - mn) / (mx - mn)) 0 1 * 255)

/-- The fragment shader's `denormalize(normalized, range) =
mix(range.x, range.y, normalized)`, with the texture byte already mapped
to `normalized = packed / 255` by the 8-bit sampler. -/
def denormalize (normalized mn mx : ℚ) : ℚ := mn + (mx - mn) * normalized

/-! ## Relighting evaluator (fragment shader) -/

/-- The shader's luminance polynomial
`L = a0·lu² + a1·lv² + a2·lu·lv + a3·lu + a4·lv + a5`. -/
def luminance (a : Fin 6 → ℚ) (lu lv : ℚ) : ℚ :=
  a 0 * lu * lu + a 1 * lv * lv + a 2 * lu * lv + a 3 * lu + a 4 * lv + a 5

/-! ## Light-direction pipeline (`app.js` + `RTIRenderer.setLightDirection`) -/

/-- `RTIRenderer.setLightDirection`: clamp each component to `[-1, 1]`. -/
def setLightDirection (p : ℝ × ℝ) : ℝ × ℝ :=
  (max (-1) (min 1 p.1), max (-1) (min 1 p.2))

/-- The clamp-to-unit-circle step of `RTIViewerApp.updateLightFromEvent`:
the normalized pointer position `(x, y)` is divided by its magnitude when
that exceeds 1. -/
noncomputable def updateLightFromEvent (raw : ℝ × ℝ) : ℝ × ℝ :=
  let mag := Real.sqrt (raw.1 * raw.1 + raw.2 * raw.2)
  if mag > 1 then (raw.1 / mag, raw.2 / mag) else raw

/-- The light direction held by the renderer after a sequence of pointer
events: it starts at `(0, 0)` (`initViewer` calls `setLightPosition(0, 0)`)
and each event replaces it through `updateLightFromEvent` followed by
`setLightDirection`. -/
noncomputable def lightAfterEvents (events : List (ℝ × ℝ)) : ℝ × ℝ :=
  events.foldl (fun _ e => setLightDirection (updateLightFromEvent e))
    (setLightDirection (0, 0))

/-- Equality of decode results is decidable (used to evaluate the decoder
on concrete buffers). -/
instance {ε α : Type} [DecidableEq ε] [DecidableEq α] : DecidableEq (Except ε α) := fun
  | .ok a, .ok b =>
    if h : a = b then .isTrue (by rw [h]) else .isFalse (by intro hc; cases hc; exact h rfl)
  | .ok _, .error _ => .isFalse (by intro h; cases h)
  | .error _, .ok _ => .isFalse (by intro h; cases h)
  | .error e, .error f =>
    if h : e = f then .isTrue (by rw [h]) else .isFalse (by intro hc; cases hc; exact h rfl)

/-! ## Concrete inputs used by the claims -/

/-- The spec's truncation scenario: a `PTM_1.2 / PTM_FORMAT_LRGB / 4 / 4`
header with unit scale and zero bias and no pixel bytes at all
(`4 * 4 * 9 = 144` bytes short). -/
def truncatedLRGBBuf : Bytes :=
  ("PTM_1.2\nPTM_FORMAT_LRGB\n4\n4\n1 1 1 1 1 1\n0 0 0 0 0 0\n").toList.map Char.toNat

/-- A buffer whose width and height lines are not numerals at all, with 36
trailing bytes so that the debug dump succeeds. -/
def nanDimsBuf : Bytes :=
  ("PTM_1.2\nPTM_FORMAT_LRGB\nabc\nabc\n1 1 1 1 1 1\n0 0 0 0 0 0\n").toList.map Char.toNat
    ++ List.replicate 36 0

/-- A 2×1 LRGB pixel-data region for the second parser revision: twelve
coefficient bytes `0 … 11` (two per-pixel groups of six) followed by the
two color triples `100 101 102` and `103 104 105`. -/
def tinyLRGBBuf : Bytes :=
  [0, 1, 2, 3, 4, 5, 6, 7, 8, 9, 10, 11, 100, 101, 102, 103, 104, 105]

/-- The decode of `tinyLRGBBuf` by the second parser revision (unit
scale, zero bias): coefficient plane `c` holds the bytes `c` and `6 + c`,
and the color plane the two stored triples. -/
def tinyDecoded : PTMData :=
  { coeffs := [[some 0, some 6], [some 1, some 7], [some 2, some 8],
               [some 3, some 9], [some 4, some 10], [some 5, some 11]],
    rgb := [(100, 101, 102), (103, 104, 105)] }

/-- A 2×2 interleaved-LRGB pixel region for the first parser revision:
four pixels, each `[10, 20, 30]` followed by the six bias bytes
`100 … 105`. -/
def biasedLRGBBuf : Bytes :=
  [10, 20, 30, 100, 101, 102, 103, 104, 105,
   10, 20, 30, 100, 101, 102, 103, 104, 105,
   10, 20, 30, 100, 101, 102, 103, 104, 105,
   10, 20, 30, 100, 101, 102, 103, 104, 105]

/-- The bias row `100 … 105` as parsed header values. -/
def biasedLRGBBias : List (Option ℚ) :=
  [some 100, some 101, some 102, some 103, some 104, some 105]

end PTM

namespace PTM

/-! ## Helper lemmas -/

/-- Folding the `min` scan from a reached value only decreases it. -/
theorem jsMinScan_fold_le (l : List ℚ) (m : ℚ) :
    ∃ r, l.foldl (fun acc v =>
        match acc with
        | none => some v
        | some m => if v < m then some v else some m) (some m) = some r ∧ r ≤ m := by
  induction l generalizing m with
  | nil => exact ⟨m, rfl, le_refl m⟩
  | cons v vs ih =>
    simp only [List.foldl_cons]
    by_cases hv : v < m
    · simp only [hv, if_pos]
      obtain ⟨r, hr, hle⟩ := ih v
      exact ⟨r, hr, hle.trans hv.le⟩
    · simp only [hv, if_neg (by exact hv)]
      exact ih m

/-- Folding the `max` scan from a reached value only increases it. -/
theorem jsMaxScan_fold_ge (l : List ℚ) (m : ℚ) :
    ∃ r, l.foldl (fun acc v =>
        match acc with
        | none => some v
        | some m => if v > m then some v else some m) (some m) = some r ∧ m ≤ r := by
  induction l generalizing m with
  | nil => exact ⟨m, rfl, le_refl m⟩
  | cons v vs ih =>
    simp only [List.foldl_cons]
    by_cases hv : v > m
    · simp only [hv, if_pos]
      obtain ⟨r, hr, hle⟩ := ih v
      exact ⟨r, hr, hv.le.trans hle⟩
    · simp only [hv, if_neg (by exact hv)]
      exact ih m

/-- The computed minimum never exceeds the computed maximum. -/
theorem jsMinScan_le_jsMaxScan {l : List ℚ} {mn mx : ℚ}
    (hmn : jsMinScan l = some mn) (hmx : jsMaxScan l = some mx) : mn ≤ mx := by
  cases l with
  | nil => simp [jsMinScan] at hmn
  | cons v vs =>
    simp only [jsMinScan, jsMaxScan, List.foldl_cons] at hmn hmx
    obtain ⟨r, hr, hle⟩ := jsMinScan_fold_le vs v
    obtain ⟨r', hr', hge⟩ := jsMaxScan_fold_ge vs v
    rw [hr] at hmn
    rw [hr'] at hmx
    cases hmn; cases hmx
    exact hle.trans hge

/-- The clamped floor of the code equals the floor of the clamp of the
spec (for a positive span): `max 0 (min 255 ⌊t * 255⌋) = ⌊clamp t 0 1 * 255⌋`. -/
theorem clamped_floor_eq (t : ℚ) :
    max 0 (min 255 ⌊t * 255⌋) = ⌊clampQ t 0 1 * 255⌋ := by
  rcases lt_or_le t 0 with h0 | h0
  · have hcl : clampQ t 0 1 = 0 := by
      simp only [clampQ]
      rw [min_eq_right (by linarith), max_eq_left h0.le]
    have hfl : ⌊t * 255⌋ < 0 := by
      rw [Int.floor_lt]
      push_cast
      nlinarith
    rw [hcl, zero_mul, Int.floor_zero]
    rw [min_eq_right (by omega), max_eq_left (by omega)]
  · rcases le_or_lt t 1 with h1 | h1
    · have hcl : clampQ t 0 1 = t := by
        simp only [clampQ]
        rw [min_eq_right h1, max_eq_right h0]
      have hf0 : 0 ≤ ⌊t * 255⌋ := by
        rw [Int.le_floor]
        push_cast
        nlinarith
      have hf255 : ⌊t * 255⌋ ≤ 255 := by
        have : (⌊t * 255⌋ : ℚ) ≤ 255 := (Int.floor_le _).trans (by nlinarith)
        exact_mod_cast this
      rw [hcl, min_eq_right hf255, max_eq_right hf0]
    · have hcl : clampQ t 0 1 = 1 := by
        simp only [clampQ]
        rw [min_eq_left h1.le, max_eq_right (by norm_num)]
      have hf255 : 255 ≤ ⌊t * 255⌋ := by
        rw [Int.le_floor]
        push_cast
        nlinarith
      rw [hcl, one_mul]
      rw [min_eq_left hf255, max_eq_right (by positivity)]
      norm_num

/-- If `f` succeeds with `g i` on every element of `l`, the loop collects
`l.map g`. -/
theorem forList_ok_of_forall {f : Nat → Except PErr α} {g : Nat → α} {l : List Nat}
    (h : ∀ i ∈ l, f i = .ok (g i)) : forList f l = .ok (l.map g) := by
  induction l with
  | nil => rfl
  | cons j js ih =>
    simp only [forList, h j (by simp), List.map_cons]
    rw [ih (fun i hi => h i (by simp [hi]))]

/-- For a positive span, `normalizeCoeff` is the floor of the clamped
normalised position. -/
theorem normalizeCoeff_eq_floor_clamp (v mn mx : ℚ) (h : mn < mx) :
    normalizeCoeff v mn mx = ⌊clampQ ((v - mn) / (mx - mn)) 0 1 * 255⌋ := by
  have hs : mx - mn ≠ 0 := by linarith
  simp only [normalizeCoeff, if_neg hs]
  exact clamped_floor_eq _

/-- The squared norm of `computeNormal` is 1 in both branches. -/
theorem computeNormal_sq_sum (a3 a4 : ℝ) :
    (computeNormal a3 a4).1 ^ 2 + (computeNormal a3 a4).2.1 ^ 2
      + (computeNormal a3 a4).2.2 ^ 2 = 1 := by
  simp only [computeNormal]
  by_cases h : a3 * a3 + a4 * a4 ≥ 1
  · simp only [if_pos h]
    have hs0 : (0 : ℝ) < a3 * a3 + a4 * a4 := lt_of_lt_of_le zero_lt_one h
    have hmag : Real.sqrt (a3 * a3 + a4 * a4) ^ 2 = a3 * a3 + a4 * a4 :=
      Real.sq_sqrt hs0.le
    have hne : Real.sqrt (a3 * a3 + a4 * a4) ≠ 0 :=
      ne_of_gt (Real.sqrt_pos.mpr hs0)
    field_simp
    ring
  · simp only [if_neg h]
    push_neg at h
    have hnn : (0 : ℝ) ≤ 1 - (a3 * a3 + a4 * a4) := by linarith
    have : Real.sqrt (1 - (a3 * a3 + a4 * a4)) ^ 2 = 1 - (a3 * a3 + a4 * a4) :=
      Real.sq_sqrt hnn
    rw [this]
    ring

/-- The z component of `computeNormal` is nonnegative in both branches. -/
theorem computeNormal_z_nonneg (a3 a4 : ℝ) : 0 ≤ (computeNormal a3 a4).2.2 := by
  simp only [computeNormal]
  by_cases h : a3 * a3 + a4 * a4 ≥ 1
  · simp [if_pos h]
  · simp only [if_neg h]
    exact Real.sqrt_nonneg _

/-- Clamping to `[-1, 1]` is the identity on `[-1, 1]`. -/
theorem clamp_eq_self {x : ℝ} (h1 : -1 ≤ x) (h2 : x ≤ 1) :
    max (-1) (min 1 x) = x := by
  rw [min_eq_right h2, max_eq_right h1]

/-- A real with square at most one lies in `[-1, 1]`. -/
theorem bounds_of_sq_le_one {x : ℝ} (h : x ^ 2 ≤ 1) : -1 ≤ x ∧ x ≤ 1 := by
  constructor <;> nlinarith [sq_nonneg (x + 1), sq_nonneg (x - 1)]

/-- One pointer event always lands the stored light direction inside the
closed unit disk. -/
theorem lightStep_in_disk (e : ℝ × ℝ) :
    (setLightDirection (updateLightFromEvent e)).1 ^ 2
      + (setLightDirection (updateLightFromEvent e)).2 ^ 2 ≤ 1 := by
  have hs : (0 : ℝ) ≤ e.1 * e.1 + e.2 * e.2 :=
    add_nonneg (mul_self_nonneg e.1) (mul_self_nonneg e.2)
  simp only [updateLightFromEvent]
  by_cases hm : Real.sqrt (e.1 * e.1 + e.2 * e.2) > 1
  · simp only [if_pos hm]
    have hs0 : (0 : ℝ) < e.1 * e.1 + e.2 * e.2 := by
      rcases lt_or_eq_of_le hs with h | h
      · exact h
      · exfalso
        rw [← h, Real.sqrt_zero] at hm
        linarith
    have hsq : Real.sqrt (e.1 * e.1 + e.2 * e.2) ^ 2 = e.1 * e.1 + e.2 * e.2 :=
      Real.sq_sqrt hs
    have hne : Real.sqrt (e.1 * e.1 + e.2 * e.2) ≠ 0 :=
      ne_of_gt (Real.sqrt_pos.mpr hs0)
    have hq : (e.1 / Real.sqrt (e.1 * e.1 + e.2 * e.2)) ^ 2
        + (e.2 / Real.sqrt (e.1 * e.1 + e.2 * e.2)) ^ 2 = 1 := by
      field_simp
      ring
    have hb1 := bounds_of_sq_le_one (x := e.1 / Real.sqrt (e.1 * e.1 + e.2 * e.2))
      (by nlinarith [sq_nonneg (e.2 / Real.sqrt (e.1 * e.1 + e.2 * e.2))])
    have hb2 := bounds_of_sq_le_one (x := e.2 / Real.sqrt (e.1 * e.1 + e.2 * e.2))
      (by nlinarith [sq_nonneg (e.1 / Real.sqrt (e.1 * e.1 + e.2 * e.2))])
    simp only [setLightDirection]
    rw [clamp_eq_self hb1.1 hb1.2, clamp_eq_self hb2.1 hb2.2]
    exact le_of_eq hq
  · simp only [if_neg hm]
    push_neg at hm
    have hdisk : e.1 * e.1 + e.2 * e.2 ≤ 1 := by
      have := Real.sq_sqrt hs
      nlinarith [Real.sqrt_nonneg (e.1 * e.1 + e.2 * e.2)]
    have hb1 := bounds_of_sq_le_one (x := e.1) (by nlinarith)
    have hb2 := bounds_of_sq_le_one (x := e.2) (by nlinarith)
    simp only [setLightDirection]
    rw [clamp_eq_self hb1.1 hb1.2, clamp_eq_self hb2.1 hb2.2]
    nlinarith

/-! ## Claims -/

/-- C8: for every pixel's coefficients `a0 … a5`, the relighting luminance
polynomial at light direction `(0, 0)` is exactly the constant term `a5`. -/
theorem c8_luminance_at_origin_is_a5 (a : Fin 6 → ℚ) : luminance a 0 0 = a 5 := by
  simp [luminance]

set_option maxRecDepth 10000 in
/-- C2: on the spec's concrete truncation scenario (an LRGB header
declaring 4×4 but with no pixel bytes), the decoder does not fail with a
bounds-checked `Truncated` error — it aborts with the uncontrolled
`RangeError` thrown by `DataView.getUint8` (no `Truncated` error kind even
exists in the code). -/
theorem c2_truncated_input_uncontrolled_range_error :
    Parser1.parse truncatedLRGBBuf = .error .rangeError := by decide

set_option maxRecDepth 10000 in
/-- C6: a header whose width and height lines are `"abc"` (not numerals)
does not make the decoder fail with a `Malformed` error: `parse` succeeds
and the returned object carries `NaN` width and height and empty pixel
planes. -/
theorem c6_nan_dimensions_decode_succeeds :
    Parser1.parse nanDimsBuf =
      .ok { version := "PTM_1.2".toList, format := "PTM_FORMAT_LRGB".toList,
            width := none, height := none,
            scale := List.replicate 6 (some 1), bias := List.replicate 6 (some 0),
            data := { coeffs := List.replicate 6 [], rgb := [] } } := by decide

unseal Rat.add Rat.sub Rat.mul Rat.inv in
/-- C1 counterexample: on a concrete 2×1 LRGB stream with unit scale and
zero bias, the decoded coefficient `a1` of the output pixel `(y, x) = (0, 0)`
is `1` — the byte at pixel-data offset `6 * ((h-1-y) * w + x) + c = 1` —
while the byte at the claimed per-coefficient-plane offset
`c * w * h + (h-1-y) * w + x = 2` is `2`; the claimed read location is
wrong. -/
theorem c1_planar_offset_counterexample :
    (Parser2.parseUncompressedLRGB tinyLRGBBuf 0 2 1
        (List.replicate 6 (some 1)) (List.replicate 6 (some 0))).map
        (fun d => (d.coeffs.getD 1 []).getD 0 none) = .ok (some 1)
    ∧ tinyLRGBBuf.get? (1 * (2 * 1) + (1 - 1 - 0) * 2 + 0) = some 2
    ∧ ((1 : ℚ) ≠ 2) :=
  ⟨by decide, by decide, by norm_num⟩

unseal Rat.add Rat.sub Rat.mul Rat.inv in
/-- C3 counterexample: for the coefficient plane `[0, 2]` the computed
range is `min = 0, max = 2`; packing the in-range value `1` gives
`Math.floor(127.5) = 127`, not the claimed `round(127.5) = 128`. -/
theorem c3_round_counterexample :
    jsMinScan [0, 2] = some 0 ∧ jsMaxScan [0, 2] = some 2
    ∧ normalizeCoeff 1 0 2 = 127
    ∧ specPackedRound 1 0 2 = 128
    ∧ ((127 : ℤ) ≠ 128) := by
  refine ⟨by decide, by decide, ?_, ?_, by decide⟩
  · show normalizeCoeff 1 0 2 = 127
    decide
  · show specPackedRound 1 0 2 = 128
    decide

/-- C3 (amended): with `min` and `max` the per-coefficient range computed
by the renderer's scan over all pixels, the packed 8-bit value of a
coefficient value `v` is `floor(clamp((v - min) / (max - min), 0, 1) * 255)`
(a floor, not a round), and when `max == min` the packed value is the
fixed midpoint 128, not a division by zero. -/
theorem c3_pack_is_clamped_floor (l : List ℚ) (v mn mx : ℚ)
    (hmn : jsMinScan l = some mn) (hmx : jsMaxScan l = some mx) :
    normalizeCoeff v mn mx =
      if mx = mn then 128 else ⌊clampQ ((v - mn) / (mx - mn)) 0 1 * 255⌋ := by
  by_cases he : mx = mn
  · simp [normalizeCoeff, he, sub_self]
  · have hle := jsMinScan_le_jsMaxScan hmn hmx
    have h : mn < mx := lt_of_le_of_ne hle (fun hh => he hh.symm)
    rw [if_neg he]
    exact normalizeCoeff_eq_floor_clamp v mn mx h

unseal Rat.add Rat.sub Rat.mul Rat.inv in
/-- Witness for C3 (amended) at the plane `[0, 2]` and value `1`. -/
theorem c3_pack_is_clamped_floor_witness :
    jsMinScan [0, 2] = some 0 ∧ jsMaxScan [0, 2] = some 2 ∧
    normalizeCoeff 1 0 2 =
      (if (2 : ℚ) = 0 then 128 else ⌊clampQ ((1 - 0) / (2 - 0)) 0 1 * 255⌋) :=
  ⟨by decide, by decide, c3_pack_is_clamped_floor [0, 2] 1 0 2 (by decide) (by decide)⟩

/-- C4: for every coefficient value `v` in the computed range
`[min, max]` with `min < max`, packing with the renderer's
`normalizeCoeff` and unpacking with the shader's `denormalize`
(`unpack(p) = min + (p/255) * (max - min)`) round-trips within the
quantisation error `(max - min) / 255`. -/
theorem c4_pack_unpack_roundtrip (mn mx v : ℚ) (h : mn < mx)
    (h2 : mn ≤ v) (h3 : v ≤ mx) :
    |denormalize ((normalizeCoeff v mn mx : ℚ) / 255) mn mx - v| ≤ (mx - mn) / 255 := by
  have hs : (0 : ℚ) < mx - mn := by linarith
  set t : ℚ := (v - mn) / (mx - mn) with ht
  have ht0 : 0 ≤ t := div_nonneg (by linarith) hs.le
  have ht1 : t ≤ 1 := by rw [ht, div_le_one hs]; linarith
  have hcl : clampQ t 0 1 = t := by
    simp only [clampQ]
    rw [min_eq_right ht1, max_eq_right ht0]
  have hpack : normalizeCoeff v mn mx = ⌊t * 255⌋ := by
    rw [normalizeCoeff_eq_floor_clamp v mn mx h, ← ht, hcl]
  have hfl : ((⌊t * 255⌋ : ℤ) : ℚ) ≤ t * 255 := Int.floor_le _
  have hfg : t * 255 - 1 < ((⌊t * 255⌋ : ℤ) : ℚ) := Int.sub_one_lt_floor _
  have hv : v = mn + (mx - mn) * t := by
    rw [ht]
    field_simp
  have key : denormalize (((⌊t * 255⌋ : ℤ) : ℚ) / 255) mn mx - v
      = (mx - mn) * (((⌊t * 255⌋ : ℤ) : ℚ) - t * 255) / 255 := by
    rw [denormalize, hv]
    ring
  rw [hpack, key, abs_div, abs_mul]
  have hd : |((⌊t * 255⌋ : ℤ) : ℚ) - t * 255| ≤ 1 := by
    rw [abs_le]
    constructor <;> linarith
  calc |mx - mn| * |((⌊t * 255⌋ : ℤ) : ℚ) - t * 255| / |(255 : ℚ)|
      = (mx - mn) * |((⌊t * 255⌋ : ℤ) : ℚ) - t * 255| / 255 := by
        rw [abs_of_pos hs]
        norm_num
    _ ≤ (mx - mn) * 1 / 255 := by gcongr
    _ = (mx - mn) / 255 := by ring

unseal Rat.add Rat.sub Rat.mul Rat.inv in
/-- Witness for C4 at range `[0, 1]` and value `1/2` (packed 127,
unpacked `127/255`, error `1/510 ≤ 1/255`). -/
theorem c4_pack_unpack_roundtrip_witness :
    ((0 : ℚ) < 1) ∧ ((0 : ℚ) ≤ 1 / 2) ∧ ((1 / 2 : ℚ) ≤ 1) ∧
    |denormalize ((normalizeCoeff (1 / 2) 0 1 : ℚ) / 255) 0 1 - 1 / 2| ≤ (1 - 0) / 255 :=
  ⟨by norm_num, by norm_num, by norm_num,
   c4_pack_unpack_roundtrip 0 1 (1 / 2) (by norm_num) (by norm_num) (by norm_num)⟩

/-- C5: a 2×2 interleaved-LRGB pixel region in which every pixel is
`[10, 20, 30, bias[0], …, bias[5]]` (each coefficient byte equal to the
corresponding bias) decodes to a base color of exactly `(10, 20, 30)` at
every pixel and six all-zero coefficient planes. -/
theorem c5_bias_pixels_decode_to_zero
    (buf : Bytes) (off : Nat) (scale bias : List (Option ℚ)) (bb : Fin 6 → ℕ)
    (hscale : ∀ c : Fin 6, ∃ sc, scale.getD (c : ℕ) none = some sc)
    (hbias : ∀ c : Fin 6, bias.getD (c : ℕ) none = some ((bb c : ℚ)))
    (hr : ∀ i, i < 4 → buf.get? (off + i * 9) = some 10)
    (hg : ∀ i, i < 4 → buf.get? (off + i * 9 + 1) = some 20)
    (hb : ∀ i, i < 4 → buf.get? (off + i * 9 + 2) = some 30)
    (hcf : ∀ i, i < 4 → ∀ c : Fin 6, buf.get? (off + i * 9 + 3 + (c : ℕ)) = some (bb c)) :
    Parser1.parseUncompressedPTM buf off (some 2) (some 2) true scale bias =
      .ok { coeffs := List.replicate 6 (List.replicate 4 (some 0)),
            rgb := List.replicate 4 (10, 20, 30) } := by
  have hpix : ∀ i ∈ List.range 4, Parser1.readPixelLRGB buf off scale bias i =
      .ok (List.replicate 6 (some (0 : ℚ)), (10, 20, 30)) := by
    intro i hi
    have hi4 : i < 4 := List.mem_range.mp hi
    simp only [Parser1.readPixelLRGB]
    rw [show getUint8 buf (off + i * 9) = .ok 10 by unfold getUint8; rw [hr i hi4]]
    rw [show getUint8 buf (off + i * 9 + 1) = .ok 20 by unfold getUint8; rw [hg i hi4]]
    rw [show getUint8 buf (off + i * 9 + 2) = .ok 30 by unfold getUint8; rw [hb i hi4]]
    simp only [bind_ok_except]
    have h6 : forRange 6 (fun c =>
        bind (getUint8 buf (off + i * 9 + 3 + c))
          (fun raw => pure (dequant scale bias c raw))) =
        .ok ((List.range 6).map (fun _ => some (0 : ℚ))) := by
      apply forList_ok_of_forall
      intro c hc
      have hc6 : c < 6 := List.mem_range.mp hc
      rw [show getUint8 buf (off + i * 9 + 3 + c) = .ok (bb ⟨c, hc6⟩) by
        unfold getUint8; rw [hcf i hi4 ⟨c, hc6⟩]]
      obtain ⟨sc, hsc⟩ := hscale ⟨c, hc6⟩
      simp only [bind_ok_except]
      have hb' : bias.getD c none = some ((bb ⟨c, hc6⟩ : ℕ) : ℚ) := hbias ⟨c, hc6⟩
      have hs' : scale.getD c none = some sc := hsc
      have hdq : dequant scale bias c (bb ⟨c, hc6⟩) = some 0 := by
        simp only [dequant, hb', hs', Option.bind_some, Option.some_bind]
        simp
      rw [hdq]
      rfl
    rw [h6]
    simp
  simp only [Parser1.parseUncompressedPTM]
  have hpc : (bind (some (2 : ℤ)) fun w => bind (some (2 : ℤ)) fun h => pure (w * h))
      = some (4 : ℤ) := by norm_num
  simp only [hpc]
  have ha1 : checkAlloc (some (4 : ℤ)) = .ok () := by simp [checkAlloc]
  have ha2 : checkAlloc (Option.map (fun z => z * 3) (some (4 : ℤ))) = .ok () := by
    simp [checkAlloc]
  rw [ha1, ha2]
  simp only [bind_ok_except, if_true, jsLen]
  have hlen : (Int.toNat 2) * (Int.toNat 2) = 4 := by decide
  rw [hlen]
  simp only [forRange] at hpix ⊢
  rw [forList_ok_of_forall hpix]
  simp only [bind_ok_except, pure_eq_ok]
  decide

/-- Witness for C5: the concrete 2×2 buffer `biasedLRGBBuf` with bias
`100 … 105` and unit scale decodes to all-zero coefficient planes and
base color `(10, 20, 30)` everywhere. -/
theorem c5_bias_pixels_decode_to_zero_witness :
    (∀ c : Fin 6, ∃ sc, (List.replicate 6 (some (1 : ℚ))).getD (c : ℕ) none = some sc)
    ∧ (∀ c : Fin 6, biasedLRGBBias.getD (c : ℕ) none = some (((100 + (c : ℕ) : ℕ)) : ℚ))
    ∧ (∀ i, i < 4 → biasedLRGBBuf.get? (0 + i * 9) = some 10)
    ∧ (∀ i, i < 4 → biasedLRGBBuf.get? (0 + i * 9 + 1) = some 20)
    ∧ (∀ i, i < 4 → biasedLRGBBuf.get? (0 + i * 9 + 2) = some 30)
    ∧ (∀ i, i < 4 → ∀ c : Fin 6,
        biasedLRGBBuf.get? (0 + i * 9 + 3 + (c : ℕ)) = some (100 + (c : ℕ)))
    ∧ Parser1.parseUncompressedPTM biasedLRGBBuf 0 (some 2) (some 2) true
        (List.replicate 6 (some 1)) biasedLRGBBias =
      .ok { coeffs := List.replicate 6 (List.replicate 4 (some 0)),
            rgb := List.replicate 4 (10, 20, 30) } :=
  ⟨fun c => ⟨1, by fin_cases c <;> rfl⟩, by decide, by decide, by decide, by decide, by decide,
   c5_bias_pixels_decode_to_zero biasedLRGBBuf 0 (List.replicate 6 (some 1)) biasedLRGBBias
     (fun c => 100 + (c : ℕ))
     (fun c => ⟨1, by fin_cases c <;> rfl⟩) (by decide) (by decide) (by decide) (by decide)
     (by decide)⟩

/-- C7: every entry of the NormalField produced by `computeNormals` is a
unit vector: `|n| = 1` exactly (candidate `(nx, ny) = (a3, a4)`, rescaled
onto the unit circle with `nz = 0` when `nx² + ny² ≥ 1`, otherwise
`nz = sqrt(1 - nx² - ny²)`). -/
theorem c7_normals_unit_length (coefficients : Fin 6 → Nat → ℝ) (pixelCount : Nat)
    (n : ℝ × ℝ × ℝ) (hn : n ∈ computeNormals coefficients pixelCount) :
    Real.sqrt (n.1 ^ 2 + n.2.1 ^ 2 + n.2.2 ^ 2) = 1 := by
  obtain ⟨i, _, rfl⟩ := List.mem_map.mp hn
  rw [computeNormal_sq_sum]
  exact Real.sqrt_one

/-- Witness for C7: the single-pixel field with all coefficients zero. -/
theorem c7_normals_unit_length_witness :
    computeNormal 0 0 ∈ computeNormals (fun _ _ => 0) 1
    ∧ Real.sqrt ((computeNormal 0 0).1 ^ 2 + (computeNormal 0 0).2.1 ^ 2
        + (computeNormal 0 0).2.2 ^ 2) = 1 :=
  ⟨by simp [computeNormals],
   c7_normals_unit_length (fun _ _ => 0) 1 _ (by simp [computeNormals])⟩

/-- C10: every normal produced by `computeNormals` has a nonnegative z
component — `nz = 0` in the degenerate branch and `nz = sqrt(1 - nx² - ny²)`
otherwise — so the estimator never outputs a downward-facing normal. -/
theorem c10_normal_z_nonneg (coefficients : Fin 6 → Nat → ℝ) (pixelCount : Nat)
    (n : ℝ × ℝ × ℝ) (hn : n ∈ computeNormals coefficients pixelCount) :
    0 ≤ n.2.2 := by
  obtain ⟨i, _, rfl⟩ := List.mem_map.mp hn
  exact computeNormal_z_nonneg _ _

/-- Witness for C10: the single-pixel field with both linear coefficients
equal to one (the degenerate branch, `nz = 0`). -/
theorem c10_normal_z_nonneg_witness :
    computeNormal 1 1 ∈ computeNormals (fun _ _ => 1) 1
    ∧ 0 ≤ (computeNormal 1 1).2.2 :=
  ⟨by simp [computeNormals],
   c10_normal_z_nonneg (fun _ _ => 1) 1 _ (by simp [computeNormals])⟩

/-- C9: after every sequence of pointer events, the light direction the
renderer evaluates with satisfies `lu² + lv² ≤ 1`: `updateLightFromEvent`
projects onto the unit disk and `setLightDirection` clamps each component
to `[-1, 1]`, starting from `(0, 0)`. -/
theorem c9_light_direction_in_unit_disk (events : List (ℝ × ℝ)) :
    (lightAfterEvents events).1 ^ 2 + (lightAfterEvents events).2 ^ 2 ≤ 1 := by
  unfold lightAfterEvents
  have aux : ∀ (es : List (ℝ × ℝ)) (p : ℝ × ℝ), p.1 ^ 2 + p.2 ^ 2 ≤ 1 →
      ((es.foldl (fun _ e => setLightDirection (updateLightFromEvent e)) p).1 ^ 2
        + (es.foldl (fun _ e => setLightDirection (updateLightFromEvent e)) p).2 ^ 2 ≤ 1) := by
    intro es
    induction es with
    | nil => intro p hp; simpa using hp
    | cons e es ih =>
      intro p hp
      simp only [List.foldl_cons]
      exact ih _ (lightStep_in_disk e)
  apply aux
  simp [setLightDirection]

/-- C1 (amended): in the second parser revision's LRGB branch, on any
successful decode, coefficient `c` of the output pixel at row `y`,
column `x` is the dequantised byte at pixel-data offset
`6 * ((h-1-y) * w + x) + c` (per-pixel groups of six coefficient bytes,
ordered a0..a5), and the base-color triple is read from the
`w*h*3`-byte color plane that follows the `6*w*h` coefficient bytes, at
offset `6*w*h + 3 * ((h-1-y) * w + x)`; scanlines of both regions are
stored bottom-to-top. -/
theorem c1_interleaved_offsets
    (buf : Bytes) (off w h : Nat) (scale bias : List (Option ℚ))
    (d : PTMData) (y x : Nat) (c : Fin 6) (raw r0 g0 b0 : Nat) (s b : ℚ)
    (hd : Parser2.parseUncompressedLRGB buf off w h scale bias = .ok d)
    (hy : y < h) (hx : x < w)
    (hsc : scale.getD (c : ℕ) none = some s)
    (hbi : bias.getD (c : ℕ) none = some b)
    (hraw : buf.get? (off + ((h - 1 - y) * w + x) * 6 + (c : ℕ)) = some raw)
    (hr : buf.get? (off + 6 * (w * h) + ((h - 1 - y) * w + x) * 3) = some r0)
    (hg : buf.get? (off + 6 * (w * h) + ((h - 1 - y) * w + x) * 3 + 1) = some g0)
    (hb : buf.get? (off + 6 * (w * h) + ((h - 1 - y) * w + x) * 3 + 2) = some b0) :
    (d.coeffs.getD (c : ℕ) []).get? (y * w + x) = some (some (((raw : ℚ) - b) * s))
    ∧ d.rgb.get? (y * w + x) = some (r0, g0, b0) := by
  have hw0 : 0 < w := Nat.pos_of_ne_zero (by omega)
  have hlt : y * w + x < w * h := by
    calc y * w + x < y * w + w := by omega
      _ = (y + 1) * w := by ring
      _ ≤ h * w := Nat.mul_le_mul_right w hy
      _ = w * h := Nat.mul_comm h w
  have hdiv : (y * w + x) / w = y := by
    rw [Nat.add_comm, Nat.add_mul_div_right x y hw0, Nat.div_eq_of_lt hx, Nat.zero_add]
  have hmod : (y * w + x) % w = x := by
    rw [Nat.add_comm, Nat.add_mul_mod_self_right, Nat.mod_eq_of_lt hx]
  simp only [Parser2.parseUncompressedLRGB] at hd
  cases hpx : forRange (w * h) (Parser2.readCoeffPixel buf off w h scale bias) with
  | error e => rw [hpx] at hd; simp at hd
  | ok px =>
    rw [hpx] at hd
    simp only [bind_ok_except] at hd
    cases hrgb : forRange (w * h) (Parser2.readRGBPixel buf off w h) with
    | error e => rw [hrgb] at hd; simp at hd
    | ok rgbpx =>
      rw [hrgb] at hd
      simp only [bind_ok_except, pure_eq_ok] at hd
      have hdd : ({ coeffs := (List.range 6).map (fun cc => px.map (fun p => p.getD cc none)),
                    rgb := rgbpx } : PTMData) = d := by
        injection hd
      subst hdd
      constructor
      · -- coefficient plane access
        obtain ⟨pcs, hpcs_f, hpcs_get⟩ := forRange_ok_get hpx (y * w + x) hlt
        simp only [Parser2.readCoeffPixel] at hpcs_f
        rw [hdiv, hmod] at hpcs_f
        obtain ⟨a, ha_f, ha_get⟩ := forRange_ok_get hpcs_f (c : ℕ) c.isLt
        rw [show getUint8 buf (off + ((h - 1 - y) * w + x) * 6 + (c : ℕ)) = .ok raw by
          unfold getUint8; rw [hraw]] at ha_f
        simp only [bind_ok_except, pure_eq_ok] at ha_f
        have ha : a = dequant scale bias (c : ℕ) raw := by
          injection ha_f with ha'
          exact ha'.symm
        have hdq : dequant scale bias (c : ℕ) raw = some (((raw : ℚ) - b) * s) := by
          rw [dequant, hbi, hsc]
          rfl
        have hplane : (((List.range 6).map
              (fun cc => px.map (fun p => p.getD cc none))).getD (c : ℕ) [])
            = px.map (fun p => p.getD (c : ℕ) none) := by
          rw [List.getD_eq_getElem?_getD, List.getElem?_map,
            List.getElem?_range c.isLt]
          rfl
        show (((List.range 6).map
            (fun cc => px.map (fun p => p.getD cc none))).getD (c : ℕ) []).get? (y * w + x)
          = some (some (((raw : ℚ) - b) * s))
        rw [hplane, List.get?_eq_getElem?, List.getElem?_map,
          ← List.get?_eq_getElem?, hpcs_get]
        simp only [Option.map_some']
        rw [List.getD_eq_getElem?_getD, ← List.get?_eq_getElem?, ha_get]
        simp [ha, hdq]
      · -- color plane access
        obtain ⟨tr, htr_f, htr_get⟩ := forRange_ok_get hrgb (y * w + x) hlt
        simp only [Parser2.readRGBPixel] at htr_f
        rw [hdiv, hmod] at htr_f
        rw [show getUint8 buf (off + 6 * (w * h) + ((h - 1 - y) * w + x) * 3) = .ok r0 by
          unfold getUint8; rw [hr]] at htr_f
        rw [show getUint8 buf (off + 6 * (w * h) + ((h - 1 - y) * w + x) * 3 + 1) = .ok g0 by
          unfold getUint8; rw [hg]] at htr_f
        rw [show getUint8 buf (off + 6 * (w * h) + ((h - 1 - y) * w + x) * 3 + 2) = .ok b0 by
          unfold getUint8; rw [hb]] at htr_f
        simp only [bind_ok_except, pure_eq_ok] at htr_f
        have htr : tr = (r0, g0, b0) := by
          injection htr_f with htr'
          exact htr'.symm
        show rgbpx.get? (y * w + x) = some (r0, g0, b0)
        rw [htr_get, htr]

unseal Rat.add Rat.sub Rat.mul Rat.inv in
/-- Witness for C1 (amended) on `tinyLRGBBuf` (2×1, unit scale, zero
bias) at output pixel `(y, x) = (0, 1)` and coefficient `c = 2`. -/
theorem c1_interleaved_offsets_witness :
    Parser2.parseUncompressedLRGB tinyLRGBBuf 0 2 1 (List.replicate 6 (some 1))
        (List.replicate 6 (some 0)) = .ok tinyDecoded
    ∧ (0 : ℕ) < 1 ∧ (1 : ℕ) < 2
    ∧ (List.replicate 6 (some (1 : ℚ))).getD 2 none = some 1
    ∧ (List.replicate 6 (some (0 : ℚ))).getD 2 none = some 0
    ∧ tinyLRGBBuf.get? (0 + ((1 - 1 - 0) * 2 + 1) * 6 + 2) = some 8
    ∧ tinyLRGBBuf.get? (0 + 6 * (2 * 1) + ((1 - 1 - 0) * 2 + 1) * 3) = some 103
    ∧ tinyLRGBBuf.get? (0 + 6 * (2 * 1) + ((1 - 1 - 0) * 2 + 1) * 3 + 1) = some 104
    ∧ tinyLRGBBuf.get? (0 + 6 * (2 * 1) + ((1 - 1 - 0) * 2 + 1) * 3 + 2) = some 105
    ∧ (tinyDecoded.coeffs.getD 2 []).get? (0 * 2 + 1)
        = some (some ((((8 : ℕ) : ℚ) - 0) * 1))
    ∧ tinyDecoded.rgb.get? (0 * 2 + 1) = some (103, 104, 105) :=
  ⟨by decide, by decide, by decide, by decide, by decide, by decide, by decide, by decide,
   by decide,
   (c1_interleaved_offsets tinyLRGBBuf 0 2 1 (List.replicate 6 (some 1))
     (List.replicate 6 (some 0)) tinyDecoded 0 1 ⟨2, by norm_num⟩ 8 103 104 105 1 0
     (by decide) (by decide) (by decide) (by decide) (by decide) (by decide) (by decide)
     (by decide) (by decide)).1,
   (c1_interleaved_offsets tinyLRGBBuf 0 2 1 (List.replicate 6 (some 1))
     (List.replicate 6 (some 0)) tinyDecoded 0 1 ⟨2, by norm_num⟩ 8 103 104 105 1 0
     (by decide) (by decide) (by decide) (by decide) (by decide) (by decide) (by decide)
     (by decide) (by decide)).2⟩

end PTM
